import Mathlib

/-!
Verification development for the emul8 repository (a CHIP-8 emulator).

The repository ships three source artifacts: the WGSL shader
`src/shader.wgsl`, the wasm-bindgen JavaScript glue `emul8.js`, and a
README.  The Rust interpreter core itself is not part of the visible
sources, so the CHIP-8 components below are modelled from the design
document; every such definition is marked `Modelled from the spec:` in
its doc comment.  The shader and the bindgen glue are embedded directly
from their sources.
-/

deriving instance DecidableEq for Except

namespace Emul8

/-! Shader embedding (src/shader.wgsl).

All f32 values computed by this shader are dyadic rationals of small
magnitude (quotients by 64 and 32, sums of such), each exactly
representable in binary32, so the WGSL f32 arithmetic is embedded as
exact rational arithmetic. -/

/-- Embeds the WGSL struct VertexOutput: a clip-space position
(vec4 of f32, modelled as rationals) and the `on` flag (u32); the WGSL
field is called `on`, a reserved word in Lean, hence `onFlag`. -/
structure VertexOutput where
  pos : ℚ × ℚ × ℚ × ℚ
  onFlag : ℕ

/-- Embeds vs_main from src/shader.wgsl.  In WGSL, `var output:
VertexOutput;` declares a zero-initialized variable; the source then
assigns `output.pos` and returns `output` without ever assigning
`output.on`, so the returned `on` field keeps its zero initial value. -/
def vsMain (vpos : ℚ × ℚ) (ipos : ℕ × ℕ) (onIn : ℕ) : VertexOutput :=
  let output : VertexOutput := ⟨(0, 0, 0, 0), 0⟩
  let width : ℚ := 64
  let height : ℚ := 32
  let twidth : ℚ := 2 / width
  let theight : ℚ := 2 / height
  let xbase : ℚ := (ipos.1 : ℚ) / width * 2 - 1
  let ybase : ℚ := (ipos.2 : ℚ) / height * 2 - 1
  let x : ℚ := xbase + vpos.1 * twidth
  let y : ℚ := ybase + vpos.2 * theight
  { output with pos := (x, y, 0, 1) }

/-- Embeds fs_main from src/shader.wgsl: the colour is
`(c, c, c, 1)` where `c = f32(input.on)`. -/
def fsMain (input : VertexOutput) : ℚ × ℚ × ℚ × ℚ :=
  let c : ℚ := (input.onFlag : ℚ)
  (c, c, c, 1)

/-! Bindgen glue embedding (emul8.js, lines 4-31). -/

/-- A JavaScript value as far as the glue heap is concerned: the
`undefined`/`null`/boolean singletons preallocated in the heap, the
numbers used as free-list links, and arbitrary other values
(distinguished by an identity tag). -/
inductive JSVal where
  | undef : JSVal
  | null : JSVal
  | boolean : Bool → JSVal
  | num : ℕ → JSVal
  | obj : ℕ → JSVal
deriving DecidableEq

/-- State of the glue: the `heap` array and the free-list head
`heap_next`.  In the glue `heap_next` always holds a number (an index
or the pseudo-index `heap.length`), so it is embedded as a natural. -/
structure GlueState where
  heap : List JSVal
  heapNext : ℕ
deriving DecidableEq

/-- Embeds lines 4-10 of emul8.js: `heap` starts as 32 undefined slots
followed by the pushed singletons undefined, null, true, false, and
`heap_next` starts at `heap.length` = 36. -/
def initState : GlueState :=
  ⟨List.replicate 32 JSVal.undef ++
    [JSVal.undef, JSVal.null, JSVal.boolean true, JSVal.boolean false], 36⟩

/-- Embeds getObject: `heap[idx]` (out-of-range reads give undefined). -/
def getObject (s : GlueState) (idx : ℕ) : JSVal :=
  s.heap.getD idx JSVal.undef

/-- Embeds addHeapObject: if `heap_next === heap.length` push the
number `heap.length + 1`; take `idx = heap_next`; advance `heap_next`
to the link stored at `heap[idx]` (in the glue this slot always holds
a number; a non-number slot is given the dummy link 0); store the
object at `idx` and return it. -/
def addHeapObject (s : GlueState) (v : JSVal) : GlueState × ℕ :=
  let heap0 : List JSVal :=
    if s.heapNext = s.heap.length
      then s.heap ++ [JSVal.num (s.heap.length + 1)]
      else s.heap
  let idx : ℕ := s.heapNext
  let next : ℕ :=
    match heap0.getD idx JSVal.undef with
    | JSVal.num k => k
    | _ => 0
  (⟨heap0.set idx v, next⟩, idx)

/-- Embeds dropObject: indices below 36 are reserved and left alone;
otherwise the slot is pushed onto the free list. -/
def dropObject (s : GlueState) (idx : ℕ) : GlueState :=
  if idx < 36 then s
  else ⟨s.heap.set idx (JSVal.num s.heapNext), idx⟩

/-- Embeds takeObject: read the object, then drop the slot. -/
def takeObject (s : GlueState) (idx : ℕ) : JSVal × GlueState :=
  (getObject s idx, dropObject s idx)

/-! CHIP-8 core, modelled from the spec (the Rust interpreter sources
are not part of the visible repository). -/

/-- Modelled from the spec: the error taxonomy of the missing core (§7). -/
inductive Emul8Error where
  | OutOfBounds : Emul8Error
  | InvalidRegister : Emul8Error
  | InvalidKey : Emul8Error
  | StackOverflow : Emul8Error
  | StackUnderflow : Emul8Error
  | RomTooLarge : Emul8Error
  | UnknownOpcode : Emul8Error
deriving DecidableEq

/-- Modelled from the spec: the call stack's capacity, 16 frames in the
default profile (§4.2, §8). -/
def stackCapacity : ℕ := 16

/-- Modelled from the spec: push a return address onto the missing
core's call stack; fails with StackOverflow if the stack is already at
capacity (§4.2). -/
def stackPush (s : List ℕ) (addr : ℕ) : Except Emul8Error (List ℕ) :=
  if stackCapacity ≤ s.length then .error .StackOverflow
  else .ok (addr :: s)

/-- Modelled from the spec: pop the most recently pushed return address
from the missing core's call stack; fails with StackUnderflow if the
stack is empty (§4.2). -/
def stackPop (s : List ℕ) : Except Emul8Error (ℕ × List ℕ) :=
  match s with
  | [] => .error .StackUnderflow
  | a :: rest => .ok (a, rest)

/-- Pushes a list of addresses in order, stopping at the first error. -/
def pushAll (s : List ℕ) : List ℕ → Except Emul8Error (List ℕ)
  | [] => .ok s
  | a :: rest =>
    match stackPush s a with
    | .ok s1 => pushAll s1 rest
    | .error e => .error e

/-- Pops n addresses, discarding the values, stopping at the first error. -/
def popN (s : List ℕ) : ℕ → Except Emul8Error (List ℕ)
  | 0 => .ok s
  | n + 1 =>
    match stackPop s with
    | .ok p => popN p.2 n
    | .error e => .error e

/-- Modelled from the spec: the delay and sound timers of the missing
core, two 8-bit counters (§4.3). -/
structure Timers where
  delay : ℕ
  sound : ℕ
deriving DecidableEq

/-- Modelled from the spec: tick decrements each timer by 1 if it is
nonzero and is a no-op on a zero timer (§4.3). -/
def Timers.tick (t : Timers) : Timers :=
  ⟨if t.delay = 0 then 0 else t.delay - 1,
   if t.sound = 0 then 0 else t.sound - 1⟩

/-- Modelled from the spec: set the delay timer (values are 8-bit). -/
def Timers.setDelay (t : Timers) (v : ℕ) : Timers :=
  { t with delay := v % 256 }

/-- Modelled from the spec: set the sound timer (values are 8-bit). -/
def Timers.setSound (t : Timers) (v : ℕ) : Timers :=
  { t with sound := v % 256 }

/-- Modelled from the spec: read the delay timer. -/
def Timers.getDelay (t : Timers) : ℕ := t.delay

/-- Modelled from the spec: the sound-active query, true iff the sound
timer is positive (§4.3). -/
def Timers.soundActive (t : Timers) : Bool := 0 < t.sound

/-- Iterates tick n times. -/
def tickN : ℕ → Timers → Timers
  | 0, t => t
  | n + 1, t => tickN n t.tick

/-- Modelled from the spec: the ADD VX,VY instruction on the 16-entry
register file — VX receives (VX + VY) mod 256 and VF (register 15)
receives the carry, 1 if the true sum exceeded 255 and 0 otherwise
(§4.6); the flag is written after the sum, as is canonical. -/
def execAddRegs (rf : List ℕ) (x y : ℕ) : List ℕ :=
  let vx := rf.getD x 0
  let vy := rf.getD y 0
  let sum := vx + vy
  (rf.set x (sum % 256)).set 15 (if 255 < sum then 1 else 0)

/-! Display buffer, modelled from the spec (§4.5): a 64x32 bit plane
stored row-major as a list of 2048 booleans, index = row * 64 + col. -/

/-- Modelled from the spec: bit i (0 = leftmost pixel, the most
significant bit) of a sprite row byte. -/
def spriteBit (b i : ℕ) : Bool := b / 2 ^ (7 - i) % 2 = 1

/-- Intermediate state of a sprite blit: the display bits plus the
collision accumulator. -/
structure DrawState where
  disp : List Bool
  collide : Bool

/-- One XOR write of the blit loop: w.1 is the pixel index, w.2 the
sprite bit; the collision accumulator records a set pixel being hit by
a set sprite bit (the set-to-unset transition). -/
def writeStep (s : DrawState) (w : ℕ × Bool) : DrawState :=
  let old := s.disp.getD w.1 false
  ⟨s.disp.set w.1 (Bool.xor old w.2), s.collide || (old && w.2)⟩

/-- Runs the blit loop over a list of writes. -/
def applyWrites (s : DrawState) (ws : List (ℕ × Bool)) : DrawState :=
  ws.foldl writeStep s

/-- Modelled from the spec: the iteration sequence of draw_sprite — for
each of the height rows (row r uses sprite byte r), for each of the 8
bits, one XOR write at pixel (x + i mod 64, y + r mod 32), both axes
wrapping (§4.5). -/
def spriteWrites (x y : ℕ) (sprite : List ℕ) : List (ℕ × Bool) :=
  (List.range sprite.length).flatMap fun r =>
    (List.range 8).map fun i =>
      (((y + r) % 32) * 64 + (x + i) % 64, spriteBit (sprite.getD r 0) i)

/-- Modelled from the spec: draw_sprite XORs the sprite onto the
display with wrap-around and returns the new display together with the
collision flag value written to VF — 1 if any pixel transitioned from
set to unset during the blit, else 0 (§4.5). -/
def drawSprite (d : List Bool) (x y : ℕ) (sprite : List ℕ) :
    List Bool × ℕ :=
  let st := applyWrites ⟨d, false⟩ (spriteWrites x y sprite)
  (st.disp, if st.collide then 1 else 0)

/-- The cleared 64x32 display. -/
def clearDisplay : List Bool := List.replicate 2048 false

/-! Memory, decoder and machine, modelled from the spec (§4.1, §4.6). -/

/-- Modelled from the spec: read one byte from the 4096-byte memory,
failing with OutOfBounds past the end (§4.1). -/
def readByte (mem : List ℕ) (addr : ℕ) : Except Emul8Error ℕ :=
  if addr < 4096 then .ok (mem.getD addr 0) else .error .OutOfBounds

/-- Modelled from the spec: write one byte (§4.1). -/
def writeByte (mem : List ℕ) (addr v : ℕ) : Except Emul8Error (List ℕ) :=
  if addr < 4096 then .ok (mem.set addr (v % 256)) else .error .OutOfBounds

/-- Modelled from the spec: big-endian 16-bit fetch spanning addr and
addr+1 (§4.1, glossary). -/
def readWord (mem : List ℕ) (addr : ℕ) : Except Emul8Error ℕ :=
  if addr + 1 < 4096 then .ok (mem.getD addr 0 * 256 + mem.getD (addr + 1) 0)
  else .error .OutOfBounds

/-- Modelled from the spec: read n consecutive bytes (sprite data). -/
def readBytes (mem : List ℕ) (base n : ℕ) : Except Emul8Error (List ℕ) :=
  if base + n ≤ 4096 then .ok ((List.range n).map fun r => mem.getD (base + r) 0)
  else .error .OutOfBounds

/-- Modelled from the spec: the closed set of standard CHIP-8
instruction forms the decoder can produce (§4.6, §9). -/
inductive Instr where
  | cls : Instr
  | ret : Instr
  | jp : ℕ → Instr
  | call : ℕ → Instr
  | seImm : ℕ → ℕ → Instr
  | sneImm : ℕ → ℕ → Instr
  | seReg : ℕ → ℕ → Instr
  | ldImm : ℕ → ℕ → Instr
  | addImm : ℕ → ℕ → Instr
  | ldReg : ℕ → ℕ → Instr
  | orReg : ℕ → ℕ → Instr
  | andReg : ℕ → ℕ → Instr
  | xorReg : ℕ → ℕ → Instr
  | addReg : ℕ → ℕ → Instr
  | subReg : ℕ → ℕ → Instr
  | shrReg : ℕ → ℕ → Instr
  | subnReg : ℕ → ℕ → Instr
  | shlReg : ℕ → ℕ → Instr
  | sneReg : ℕ → ℕ → Instr
  | ldI : ℕ → Instr
  | jpV0 : ℕ → Instr
  | rnd : ℕ → ℕ → Instr
  | drw : ℕ → ℕ → ℕ → Instr
  | skp : ℕ → Instr
  | sknp : ℕ → Instr
  | ldFromDelay : ℕ → Instr
  | waitKey : ℕ → Instr
  | setDelayIns : ℕ → Instr
  | setSoundIns : ℕ → Instr
  | addI : ℕ → Instr
  | ldFont : ℕ → Instr
  | bcd : ℕ → Instr
  | storeRegs : ℕ → Instr
  | loadRegs : ℕ → Instr
deriving DecidableEq

/-- Modelled from the spec: the pure decode step — classify a 16-bit
opcode by its highest nibble and, for ambiguous groups, by its trailing
nibble or byte, into one of the standard instruction forms; every
opcode outside those forms decodes to none (§4.6, §9). -/
def decode (op : ℕ) : Option Instr :=
  let x := op / 256 % 16
  let y := op / 16 % 16
  let n := op % 16
  let kk := op % 256
  let nnn := op % 4096
  match op / 4096 % 16 with
  | 0 =>
    if op % 4096 = 0x0E0 then some .cls
    else if op % 4096 = 0x0EE then some .ret
    else none
  | 1 => some (.jp nnn)
  | 2 => some (.call nnn)
  | 3 => some (.seImm x kk)
  | 4 => some (.sneImm x kk)
  | 5 => if n = 0 then some (.seReg x y) else none
  | 6 => some (.ldImm x kk)
  | 7 => some (.addImm x kk)
  | 8 =>
    match n with
    | 0 => some (.ldReg x y)
    | 1 => some (.orReg x y)
    | 2 => some (.andReg x y)
    | 3 => some (.xorReg x y)
    | 4 => some (.addReg x y)
    | 5 => some (.subReg x y)
    | 6 => some (.shrReg x y)
    | 7 => some (.subnReg x y)
    | 14 => some (.shlReg x y)
    | _ => none
  | 9 => if n = 0 then some (.sneReg x y) else none
  | 10 => some (.ldI nnn)
  | 11 => some (.jpV0 nnn)
  | 12 => some (.rnd x kk)
  | 13 => some (.drw x y n)
  | 14 =>
    if kk = 0x9E then some (.skp x)
    else if kk = 0xA1 then some (.sknp x)
    else none
  | 15 =>
    match kk with
    | 0x07 => some (.ldFromDelay x)
    | 0x0A => some (.waitKey x)
    | 0x15 => some (.setDelayIns x)
    | 0x18 => some (.setSoundIns x)
    | 0x1E => some (.addI x)
    | 0x29 => some (.ldFont x)
    | 0x33 => some (.bcd x)
    | 0x55 => some (.storeRegs x)
    | 0x65 => some (.loadRegs x)
    | _ => none
  | _ => none

/-- Modelled from the spec: the three control states of the core state
machine (§4.6, §9). -/
inductive MState where
  | running : MState
  | waiting : MState
  | halted : MState
deriving DecidableEq

/-- Modelled from the spec: the Machine aggregate — control state,
4096-byte memory, 16 8-bit registers, index register, program counter,
call stack, the two timers, 16-key input map, the 64x32 display, the
target register of a pending wait-for-key, and an injected stream of
random bytes standing in for the host RNG (§3, §6 Clock determinism). -/
structure Machine where
  state : MState
  mem : List ℕ
  v : List ℕ
  idx : ℕ
  pc : ℕ
  stack : List ℕ
  timers : Timers
  keys : List Bool
  disp : List Bool
  waitReg : ℕ
  rand : List ℕ

/-- Modelled from the spec: any_key_down — the lowest-numbered key
currently held, if any (§4.4). -/
def anyKeyDown (keys : List Bool) : Option ℕ :=
  (List.range 16).find? fun k => keys.getD k false

/-- Modelled from the spec: the font sprite for hex digit d starts at
address 5 * d, the 16-glyph font being loaded at 0x000 (§4.1). -/
def fontAddr (d : ℕ) : ℕ := 5 * (d % 16)

/-- Writes a run of byte values starting at base. -/
def setRange (mem : List ℕ) (base : ℕ) : List ℕ → List ℕ
  | [] => mem
  | v :: rest => setRange (mem.set base (v % 256)) (base + 1) rest

/-- Modelled from the spec: the semantics of each decoded instruction
(§4.6); the machine received here already has its program counter
advanced past the opcode.  Quirk configuration (§4.6, §9): shifts
operate on VX, and the register-range load/store leaves the index
register unchanged. -/
def execInstr (m : Machine) : Instr → Except Emul8Error Machine
  | .cls => .ok { m with disp := clearDisplay }
  | .ret =>
    match stackPop m.stack with
    | .error e => .error e
    | .ok p => .ok { m with pc := p.1, stack := p.2 }
  | .jp nnn => .ok { m with pc := nnn }
  | .call nnn =>
    match stackPush m.stack m.pc with
    | .error e => .error e
    | .ok st => .ok { m with stack := st, pc := nnn }
  | .seImm x kk =>
    .ok (if m.v.getD x 0 = kk then { m with pc := m.pc + 2 } else m)
  | .sneImm x kk =>
    .ok (if m.v.getD x 0 ≠ kk then { m with pc := m.pc + 2 } else m)
  | .seReg x y =>
    .ok (if m.v.getD x 0 = m.v.getD y 0 then { m with pc := m.pc + 2 } else m)
  | .ldImm x kk => .ok { m with v := m.v.set x kk }
  | .addImm x kk => .ok { m with v := m.v.set x ((m.v.getD x 0 + kk) % 256) }
  | .ldReg x y => .ok { m with v := m.v.set x (m.v.getD y 0) }
  | .orReg x y => .ok { m with v := m.v.set x (Nat.lor (m.v.getD x 0) (m.v.getD y 0)) }
  | .andReg x y => .ok { m with v := m.v.set x (Nat.land (m.v.getD x 0) (m.v.getD y 0)) }
  | .xorReg x y => .ok { m with v := m.v.set x (Nat.xor (m.v.getD x 0) (m.v.getD y 0)) }
  | .addReg x y => .ok { m with v := execAddRegs m.v x y }
  | .subReg x y =>
    let vx := m.v.getD x 0
    let vy := m.v.getD y 0
    .ok { m with v := (m.v.set x ((vx + 256 - vy % 256) % 256)).set 15 (if vy ≤ vx then 1 else 0) }
  | .shrReg x _ =>
    let vx := m.v.getD x 0
    .ok { m with v := (m.v.set x (vx / 2)).set 15 (vx % 2) }
  | .subnReg x y =>
    let vx := m.v.getD x 0
    let vy := m.v.getD y 0
    .ok { m with v := (m.v.set x ((vy + 256 - vx % 256) % 256)).set 15 (if vx ≤ vy then 1 else 0) }
  | .shlReg x _ =>
    let vx := m.v.getD x 0
    .ok { m with v := (m.v.set x (vx * 2 % 256)).set 15 (vx / 128 % 2) }
  | .sneReg x y =>
    .ok (if m.v.getD x 0 ≠ m.v.getD y 0 then { m with pc := m.pc + 2 } else m)
  | .ldI nnn => .ok { m with idx := nnn }
  | .jpV0 nnn => .ok { m with pc := nnn + m.v.getD 0 0 }
  | .rnd x kk =>
    .ok { m with v := m.v.set x (Nat.land (m.rand.headD 0 % 256) kk),
                 rand := m.rand.tail }
  | .drw x y n =>
    match readBytes m.mem m.idx n with
    | .error e => .error e
    | .ok sprite =>
      let res := drawSprite m.disp (m.v.getD x 0) (m.v.getD y 0) sprite
      .ok { m with disp := res.1, v := m.v.set 15 res.2 }
  | .skp x =>
    .ok (if m.keys.getD (m.v.getD x 0 % 16) false then { m with pc := m.pc + 2 } else m)
  | .sknp x =>
    .ok (if m.keys.getD (m.v.getD x 0 % 16) false then m else { m with pc := m.pc + 2 })
  | .ldFromDelay x => .ok { m with v := m.v.set x m.timers.delay }
  | .waitKey x =>
    match anyKeyDown m.keys with
    | some k => .ok { m with v := m.v.set x k }
    | none => .ok { m with state := .waiting, waitReg := x }
  | .setDelayIns x => .ok { m with timers := m.timers.setDelay (m.v.getD x 0) }
  | .setSoundIns x => .ok { m with timers := m.timers.setSound (m.v.getD x 0) }
  | .addI x => .ok { m with idx := (m.idx + m.v.getD x 0) % 65536 }
  | .ldFont x => .ok { m with idx := fontAddr (m.v.getD x 0) }
  | .bcd x =>
    let vx := m.v.getD x 0
    if m.idx + 2 < 4096 then
      .ok { m with mem := setRange m.mem m.idx [vx / 100, vx / 10 % 10, vx % 10] }
    else .error .OutOfBounds
  | .storeRegs x =>
    if m.idx + x < 4096 then
      .ok { m with mem := setRange m.mem m.idx ((List.range (x + 1)).map fun r => m.v.getD r 0) }
    else .error .OutOfBounds
  | .loadRegs x =>
    if m.idx + x < 4096 then
      let rf := (List.range (x + 1)).foldl
        (fun rf r => rf.set r (m.mem.getD (m.idx + r) 0)) m.v
      .ok { m with v := rf }
    else .error .OutOfBounds

/-- Modelled from the spec: one cycle of the core state machine — taken
only while Running: fetch the opcode at PC, advance PC by 2 before
dispatch, then decode and execute.  A fetch error, a decode failure or
a per-cycle execution error transitions the machine to Halted and
surfaces the error; Halted is terminal.  A Waiting machine only polls
the keys (§4.4, §4.6, §7). -/
def cycle (m : Machine) : Machine × Option Emul8Error :=
  match m.state with
  | .halted => (m, none)
  | .waiting =>
    match anyKeyDown m.keys with
    | some k => ({ m with state := .running, v := m.v.set m.waitReg k }, none)
    | none => (m, none)
  | .running =>
    match readWord m.mem m.pc with
    | .error e => ({ m with state := .halted }, some e)
    | .ok op =>
      match decode op with
      | none => ({ m with pc := m.pc + 2, state := .halted }, some .UnknownOpcode)
      | some ins =>
        match execInstr { m with pc := m.pc + 2 } ins with
        | .error e => ({ m with pc := m.pc + 2, state := .halted }, some e)
        | .ok m1 => (m1, none)

/-- Modelled from the spec: the Scheduler's per-tick cycle batch — it
issues up to n cycles but stops issuing as soon as the machine is
Halted (§4.7, §7). -/
def runCycles : ℕ → Machine → Machine
  | 0, m => m
  | n + 1, m =>
    if m.state = MState.halted then m else runCycles n (cycle m).1

/-- A freshly initialized machine: zero-filled memory and registers,
program counter at the 0x200 program origin, empty stack, no keys
held, cleared display. -/
def initMachine : Machine :=
  ⟨.running, List.replicate 4096 0, List.replicate 16 0, 0, 0x200, [],
   ⟨0, 0⟩, List.replicate 16 false, clearDisplay, 0, []⟩

/-! Auxiliary list lemmas. -/

theorem getD_set_self {α : Type} (l : List α) (i : ℕ) (a d : α)
    (h : i < l.length) : (l.set i a).getD i d = a := by
  simp [List.getD_eq_getElem?_getD, List.getElem?_set_self, h]

theorem getD_set_ne {α : Type} (l : List α) (i j : ℕ) (a d : α)
    (h : i ≠ j) : (l.set i a).getD j d = l.getD j d := by
  simp [List.getD_eq_getElem?_getD, List.getElem?_set_ne h]

theorem set_of_getD {α : Type} (l : List α) (i : ℕ) (a d : α)
    (hi : i < l.length) (h : l.getD i d = a) : l.set i a = l := by
  apply List.ext_getElem?
  intro n
  by_cases hn : i = n
  · subst hn
    rw [List.getElem?_set_self hi, List.getElem?_eq_getElem hi,
      List.getD_eq_getElem l d hi] at *
    rw [h]
  · rw [List.getElem?_set_ne hn]

theorem getD_append_last {α : Type} (l : List α) (x d : α) :
    (l ++ [x]).getD l.length d = x := by
  simp [List.getD_eq_getElem?_getD]

theorem ext_getD {α : Type} (d : α) (l1 l2 : List α)
    (h : l1.length = l2.length) (hk : ∀ k, l1.getD k d = l2.getD k d) :
    l1 = l2 := by
  apply List.ext_getElem h
  intro i h1 h2
  have hi := hk i
  rwa [List.getD_eq_getElem l1 d h1, List.getD_eq_getElem l2 d h2] at hi

theorem any_congr {α : Type} (l : List α) (f g : α → Bool)
    (h : ∀ a ∈ l, f a = g a) : l.any f = l.any g := by
  induction l with
  | nil => rfl
  | cons a t ih =>
    simp only [List.any_cons, h a (List.mem_cons_self a t)]
    rw [ih fun b hb => h b (List.mem_cons_of_mem a hb)]

/-! Claim: the external shading stage.  The WGSL vertex stage never
assigns the `on` input to the output struct, so the zero-initialized
field reaches the fragment stage and every fragment is rendered black,
contradicting the shader's own comments. -/

/-- The vertex stage drops the `on` attribute: the returned struct
always carries `onFlag = 0`, and consequently the fragment stage
colours the fragment black `(0,0,0,1)` even for a vertex whose `on`
input is 1. -/
theorem vsMain_drops_on :
    (∀ (vpos : ℚ × ℚ) (ipos : ℕ × ℕ) (onIn : ℕ),
      (vsMain vpos ipos onIn).onFlag = 0) ∧
    fsMain (vsMain (0, 0) (0, 0) 1) = (0, 0, 0, 1) :=
  ⟨fun _ _ _ => rfl, by norm_num [vsMain, fsMain]⟩

/-- C8: for an instance position (ix, iy) in the 64x32 grid and a
vertex offset inside the unit tile, vs_main places the vertex inside
the clip-space cell of that instance. -/
theorem vsMain_cell (ix iy onIn : ℕ) (vx vy : ℚ)
    (hix : ix < 64) (hiy : iy < 32)
    (h0x : 0 ≤ vx) (h1x : vx ≤ 1) (h0y : 0 ≤ vy) (h1y : vy ≤ 1) :
    ((ix : ℚ) * (2 / 64) - 1 ≤ (vsMain (vx, vy) (ix, iy) onIn).pos.1 ∧
      (vsMain (vx, vy) (ix, iy) onIn).pos.1 ≤ ((ix : ℚ) + 1) * (2 / 64) - 1) ∧
    ((iy : ℚ) * (2 / 32) - 1 ≤ (vsMain (vx, vy) (ix, iy) onIn).pos.2.1 ∧
      (vsMain (vx, vy) (ix, iy) onIn).pos.2.1 ≤ ((iy : ℚ) + 1) * (2 / 32) - 1) := by
  have hx : (vsMain (vx, vy) (ix, iy) onIn).pos.1
      = (ix : ℚ) / 64 * 2 - 1 + vx * (2 / 64) := rfl
  have hy : (vsMain (vx, vy) (ix, iy) onIn).pos.2.1
      = (iy : ℚ) / 32 * 2 - 1 + vy * (2 / 32) := rfl
  have bx0 : 0 ≤ vx * (2 / 64) := by positivity
  have bx1 : vx * (2 / 64) ≤ 2 / 64 := by nlinarith
  have by0 : 0 ≤ vy * (2 / 32) := by positivity
  have by1 : vy * (2 / 32) ≤ 2 / 32 := by nlinarith
  rw [hx, hy]
  constructor
  · constructor <;> [linarith; linarith]
  · constructor <;> [linarith; linarith]

/-- Witness for vsMain_cell at instance (3, 5) with the tile-centre
vertex offset. -/
theorem vsMain_cell_witness :
    ((3 : ℚ) * (2 / 64) - 1 ≤ (vsMain (1/2, 1/2) (3, 5) 0).pos.1 ∧
      (vsMain (1/2, 1/2) (3, 5) 0).pos.1 ≤ ((3 : ℚ) + 1) * (2 / 64) - 1) ∧
    ((5 : ℚ) * (2 / 32) - 1 ≤ (vsMain (1/2, 1/2) (3, 5) 0).pos.2.1 ∧
      (vsMain (1/2, 1/2) (3, 5) 0).pos.2.1 ≤ ((5 : ℚ) + 1) * (2 / 32) - 1) :=
  vsMain_cell 3 5 0 (1/2) (1/2) (by norm_num) (by norm_num)
    (by norm_num) (by norm_num) (by norm_num) (by norm_num)

/-! Claims about the bindgen glue heap. -/

/-- C9 counterexample: starting from the glue's initial state (where
`heap_next` equals `heap.length`), `takeObject (addHeapObject v)`
returns v but does not restore the heap array — the array has grown by
one free-list slot — so the round trip is not a strict state identity. -/
theorem takeObject_addHeapObject_grows :
    (takeObject (addHeapObject initState (JSVal.obj 0)).1
        (addHeapObject initState (JSVal.obj 0)).2).1 = JSVal.obj 0 ∧
    (takeObject (addHeapObject initState (JSVal.obj 0)).1
        (addHeapObject initState (JSVal.obj 0)).2).2 ≠ initState := by
  decide

/-- C9 (amended): takeObject after addHeapObject always returns the
stored value and restores `heap_next`; the heap array itself is
restored exactly when the consumed free slot lay inside the array, and
when `heap_next = heap.length` the array instead gains one slot holding
the free-list link `heap.length + 1`, all other entries unchanged. -/
theorem takeObject_addHeapObject (s : GlueState) (v : JSVal) (k : ℕ)
    (h36 : 36 ≤ s.heapNext) :
    (s.heapNext < s.heap.length →
      s.heap.getD s.heapNext JSVal.undef = JSVal.num k →
      takeObject (addHeapObject s v).1 (addHeapObject s v).2 = (v, s)) ∧
    (s.heapNext = s.heap.length →
      takeObject (addHeapObject s v).1 (addHeapObject s v).2
        = (v, ⟨s.heap ++ [JSVal.num (s.heap.length + 1)], s.heapNext⟩)) := by
  constructor
  · intro hlt hk
    have hne : s.heapNext ≠ s.heap.length := Nat.ne_of_lt hlt
    have hadd : addHeapObject s v = (⟨s.heap.set s.heapNext v, k⟩, s.heapNext) := by
      simp only [addHeapObject, if_neg hne, hk]
    rw [hadd]
    have hget : (s.heap.set s.heapNext v).getD s.heapNext JSVal.undef = v :=
      getD_set_self _ _ _ _ hlt
    have hdrop : dropObject ⟨s.heap.set s.heapNext v, k⟩ s.heapNext
        = ⟨s.heap, s.heapNext⟩ := by
      have h36' : ¬ s.heapNext < 36 := by omega
      simp only [dropObject, if_neg h36']
      have : (s.heap.set s.heapNext v).set s.heapNext (JSVal.num k)
          = s.heap := by
        rw [List.set_set]
        exact set_of_getD _ _ _ _ hlt hk
      rw [this]
    simp only [takeObject, getObject, hget, hdrop]
  · intro heq
    have hlen : (s.heap ++ [JSVal.num (s.heap.length + 1)]).getD s.heapNext
        JSVal.undef = JSVal.num (s.heap.length + 1) := by
      rw [heq]; exact getD_append_last _ _ _
    have hadd : addHeapObject s v
        = (⟨(s.heap ++ [JSVal.num (s.heap.length + 1)]).set s.heapNext v,
            s.heap.length + 1⟩, s.heapNext) := by
      simp only [addHeapObject, if_pos heq, hlen]
    rw [hadd]
    have hlt : s.heapNext < (s.heap ++ [JSVal.num (s.heap.length + 1)]).length := by
      rw [heq]; simp
    have hget : ((s.heap ++ [JSVal.num (s.heap.length + 1)]).set s.heapNext v).getD
        s.heapNext JSVal.undef = v := getD_set_self _ _ _ _ hlt
    have h36' : ¬ s.heapNext < 36 := by omega
    have hdrop : dropObject
        ⟨(s.heap ++ [JSVal.num (s.heap.length + 1)]).set s.heapNext v,
          s.heap.length + 1⟩ s.heapNext
        = ⟨s.heap ++ [JSVal.num (s.heap.length + 1)], s.heapNext⟩ := by
      simp only [dropObject, if_neg h36']
      have : ((s.heap ++ [JSVal.num (s.heap.length + 1)]).set s.heapNext v).set
          s.heapNext (JSVal.num (s.heap.length + 1))
          = s.heap ++ [JSVal.num (s.heap.length + 1)] := by
        rw [List.set_set]
        exact set_of_getD _ _ _ _ hlt hlen
      rw [this]
    simp only [takeObject, getObject, hget, hdrop]

/-- Witness for takeObject_addHeapObject: a state whose free slot 36
lies inside the heap array round-trips exactly. -/
theorem takeObject_addHeapObject_witness :
    takeObject
        (addHeapObject ⟨List.replicate 32 JSVal.undef ++
          [JSVal.undef, JSVal.null, JSVal.boolean true, JSVal.boolean false,
            JSVal.num 38], 36⟩ (JSVal.obj 7)).1
        (addHeapObject ⟨List.replicate 32 JSVal.undef ++
          [JSVal.undef, JSVal.null, JSVal.boolean true, JSVal.boolean false,
            JSVal.num 38], 36⟩ (JSVal.obj 7)).2
      = (JSVal.obj 7, ⟨List.replicate 32 JSVal.undef ++
          [JSVal.undef, JSVal.null, JSVal.boolean true, JSVal.boolean false,
            JSVal.num 38], 36⟩) :=
  (takeObject_addHeapObject _ (JSVal.obj 7) 38 (by decide)).1
    (by decide) (by decide)

/-- C10: dropObject is the identity on reserved indices (below 36), so
takeObject at a reserved index leaves the state intact and keeps
returning the preallocated singleton stored there. -/
theorem dropObject_reserved :
    (∀ (s : GlueState) (idx : ℕ), idx < 36 →
      dropObject s idx = s ∧ (takeObject s idx).2 = s ∧
      (takeObject s idx).1 = s.heap.getD idx JSVal.undef) ∧
    (takeObject initState 32).1 = JSVal.undef ∧
    (takeObject initState 33).1 = JSVal.null ∧
    (takeObject initState 34).1 = JSVal.boolean true ∧
    (takeObject initState 35).1 = JSVal.boolean false := by
  refine ⟨fun s idx h => ?_, by decide, by decide, by decide, by decide⟩
  simp [dropObject, takeObject, getObject, if_pos h]

/-- Witness for dropObject_reserved at the null singleton slot. -/
theorem dropObject_reserved_witness :
    dropObject initState 33 = initState ∧
    (takeObject initState 33).2 = initState ∧
    (takeObject initState 33).1 = initState.heap.getD 33 JSVal.undef :=
  dropObject_reserved.1 initState 33 (by decide)

/-! Claims about the spec-modelled CHIP-8 components. -/

/-- C4: ADD VX,VY stores the 8-bit wrapped sum in VX and the carry in
VF, together with the two concrete scenarios of the spec. -/
theorem execAddRegs_spec :
    (∀ (rf : List ℕ) (x y : ℕ), rf.length = 16 → x < 16 → y < 16 → x ≠ 15 →
      (execAddRegs rf x y).getD x 0 = (rf.getD x 0 + rf.getD y 0) % 256 ∧
      (execAddRegs rf x y).getD 15 0
        = if 255 < rf.getD x 0 + rf.getD y 0 then 1 else 0) ∧
    (execAddRegs (250 :: 10 :: List.replicate 14 0) 0 1).getD 0 0 = 4 ∧
    (execAddRegs (250 :: 10 :: List.replicate 14 0) 0 1).getD 15 0 = 1 ∧
    (execAddRegs (10 :: 10 :: List.replicate 14 0) 0 1).getD 0 0 = 20 ∧
    (execAddRegs (10 :: 10 :: List.replicate 14 0) 0 1).getD 15 0 = 0 := by
  refine ⟨fun rf x y hlen hx hy hx15 => ⟨?_, ?_⟩, by decide, by decide,
    by decide, by decide⟩
  · rw [execAddRegs, getD_set_ne _ _ _ _ _ (Ne.symm hx15)]
    exact getD_set_self _ _ _ _ (by omega)
  · rw [execAddRegs]
    exact getD_set_self _ _ _ _ (by rw [List.length_set]; omega)

/-- Witness for execAddRegs_spec on an all-zero register file. -/
theorem execAddRegs_spec_witness :
    (execAddRegs (List.replicate 16 0) 2 3).getD 2 0
      = ((List.replicate 16 0).getD 2 0 + (List.replicate 16 0).getD 3 0) % 256 ∧
    (execAddRegs (List.replicate 16 0) 2 3).getD 15 0
      = if 255 < (List.replicate 16 0).getD 2 0 + (List.replicate 16 0).getD 3 0
          then 1 else 0 :=
  execAddRegs_spec.1 (List.replicate 16 0) 2 3 (by decide) (by decide)
    (by decide) (by decide)

/-- C5: from the empty stack, 16 pushes succeed (producing the 16
pushed addresses), a 17th push fails with StackOverflow, 16 pops drain
the stack back to empty, and a pop of the empty stack fails with
StackUnderflow. -/
theorem stack_capacity_cycle :
    pushAll [] (List.range 16) = .ok (List.range 16).reverse ∧
    stackPush (List.range 16).reverse 999 = .error .StackOverflow ∧
    popN (List.range 16).reverse 16 = .ok [] ∧
    stackPop [] = .error .StackUnderflow := by
  decide

/-- C6: tick decrements each nonzero timer by one and leaves a zero
timer at zero; after set_delay 5, five ticks reach 0 and a sixth tick
keeps it at 0. -/
theorem timers_tick_spec :
    (∀ t : Timers,
      (t.delay ≠ 0 → t.tick.delay = t.delay - 1) ∧
      (t.delay = 0 → t.tick.delay = 0) ∧
      (t.sound ≠ 0 → t.tick.sound = t.sound - 1) ∧
      (t.sound = 0 → t.tick.sound = 0)) ∧
    (tickN 5 (Timers.setDelay ⟨0, 0⟩ 5)).getDelay = 0 ∧
    (tickN 6 (Timers.setDelay ⟨0, 0⟩ 5)).getDelay = 0 := by
  refine ⟨fun t => ⟨fun h => ?_, fun h => ?_, fun h => ?_, fun h => ?_⟩,
    by decide, by decide⟩ <;> simp [Timers.tick, h]

/-- Witness for timers_tick_spec on a timer holding 3. -/
theorem timers_tick_spec_witness :
    (Timers.tick ⟨3, 0⟩).delay = 3 - 1 ∧ (Timers.tick ⟨3, 0⟩).sound = 0 :=
  ⟨(timers_tick_spec.1 ⟨3, 0⟩).1 (by decide),
    (timers_tick_spec.1 ⟨3, 0⟩).2.2.2 (by decide)⟩

/-- C7: an opcode outside the standard instruction forms halts the
machine and surfaces a decode failure; a halted machine is unchanged by
further cycles, and the scheduler's cycle batch never advances a halted
machine. -/
theorem unknown_opcode_halts :
    (∀ (m : Machine) (op : ℕ), m.state = .running →
      readWord m.mem m.pc = .ok op → decode op = none →
      (cycle m).1.state = .halted ∧ (cycle m).2 = some .UnknownOpcode) ∧
    (∀ m : Machine, m.state = .halted → cycle m = (m, none)) ∧
    (∀ (n : ℕ) (m : Machine), m.state = .halted → runCycles n m = m) := by
  refine ⟨fun m op h1 h2 h3 => ?_, fun m h => ?_, fun n => ?_⟩
  · simp [cycle, h1, h2, h3]
  · simp [cycle, h]
  · induction n with
    | zero => intro m _; rfl
    | succ n ih => intro m h; simp [runCycles, h]

set_option maxRecDepth 4000 in
/-- Witness for unknown_opcode_halts: the fresh machine fetches opcode
0x0000, which decodes to none, and halts with UnknownOpcode. -/
theorem unknown_opcode_halts_witness :
    (cycle initMachine).1.state = .halted ∧
    (cycle initMachine).2 = some .UnknownOpcode :=
  unknown_opcode_halts.1 initMachine 0 rfl (by decide) (by decide)

/-! The draw_sprite blit loop: pointwise characterization.  Each write
of the loop targets a distinct pixel (rows alias only modulo 32 and a
CHIP-8 sprite has at most 15 rows), so the loop XORs each covered pixel
exactly once and the collision accumulator sees the original pixel
values. -/

theorem applyWrites_disp_length (ws : List (ℕ × Bool)) (s : DrawState) :
    (applyWrites s ws).disp.length = s.disp.length := by
  induction ws generalizing s with
  | nil => rfl
  | cons w t ih =>
    show (applyWrites (writeStep s w) t).disp.length = _
    rw [ih]
    simp [writeStep]

theorem applyWrites_getD_not_mem (ws : List (ℕ × Bool)) (s : DrawState)
    (j : ℕ) (h : j ∉ ws.map Prod.fst) :
    (applyWrites s ws).disp.getD j false = s.disp.getD j false := by
  induction ws generalizing s with
  | nil => rfl
  | cons w t ih =>
    have hj : w.1 ≠ j := fun he => h (by simp [← he])
    have ht : j ∉ t.map Prod.fst := fun hm => h (by simp [hm])
    show (applyWrites (writeStep s w) t).disp.getD j false = _
    rw [ih _ ht]
    simp only [writeStep]
    exact getD_set_ne _ _ _ _ _ hj

theorem applyWrites_getD_mem (ws : List (ℕ × Bool)) (s : DrawState)
    (j : ℕ) (b : Bool) (nd : (ws.map Prod.fst).Nodup) ( hm : (j, b) ∈ ws)
    (hj : j < s.disp.length) :
    (applyWrites s ws).disp.getD j false
      = Bool.xor (s.disp.getD j false) b := by
  induction ws generalizing s with
  | nil => cases hm
  | cons w t ih =>
    rw [List.map_cons, List.nodup_cons] at nd
    rcases List.mem_cons.1 hm with he | ht
    · have hfst : j ∉ t.map Prod.fst := by rw [← he] at nd; exact nd.1
      show (applyWrites (writeStep s w) t).disp.getD j false = _
      rw [applyWrites_getD_not_mem t _ j hfst]
      rw [← he]
      simp only [writeStep]
      exact getD_set_self _ _ _ _ hj
    · have hw : w.1 ≠ j := by
        intro he2
        exact nd.1 (he2 ▸ List.mem_map.2 ⟨(j, b), ht, rfl⟩)
      show (applyWrites (writeStep s w) t).disp.getD j false = _
      rw [ih _ nd.2 ht (by simpa [writeStep] using hj)]
      simp only [writeStep]
      rw [getD_set_ne _ _ _ _ _ hw]

theorem applyWrites_collide (ws : List (ℕ × Bool)) (s : DrawState)
    (nd : (ws.map Prod.fst).Nodup) :
    (applyWrites s ws).collide
      = (s.collide || ws.any fun w => s.disp.getD w.1 false && w.2) := by
  induction ws generalizing s with
  | nil => simp [applyWrites]
  | cons w t ih =>
    rw [List.map_cons, List.nodup_cons] at nd
    show (applyWrites (writeStep s w) t).collide = _
    rw [ih _ nd.2]
    have hdisp : ∀ u ∈ t,
        ((writeStep s w).disp.getD u.1 false && u.2)
          = (s.disp.getD u.1 false && u.2) := by
      intro u hu
      have hne : w.1 ≠ u.1 := fun he => nd.1 (he ▸ List.mem_map.2 ⟨u, hu, rfl⟩)
      rw [show (writeStep s w).disp = s.disp.set w.1
          (Bool.xor (s.disp.getD w.1 false) w.2) from rfl]
      rw [getD_set_ne _ _ _ _ _ hne]
    rw [any_congr t _ _ hdisp]
    simp [writeStep, Bool.or_assoc]

theorem spriteWrites_fst_lt (x y : ℕ) (sprite : List ℕ) :
    ∀ w ∈ spriteWrites x y sprite, w.1 < 2048 := by
  intro w hw
  obtain ⟨r, _, hw2⟩ := List.mem_flatMap.1 hw
  obtain ⟨i, _, he⟩ := List.mem_map.1 hw2
  subst he
  have h1 : (y + r) % 32 < 32 := Nat.mod_lt _ (by norm_num)
  have h2 : (x + i) % 64 < 64 := Nat.mod_lt _ (by norm_num)
  show ((y + r) % 32) * 64 + (x + i) % 64 < 2048
  omega

theorem spriteWrites_mem (x y : ℕ) (sprite : List ℕ) (r i : ℕ)
    (hr : r < sprite.length) (hi : i < 8) :
    (((y + r) % 32) * 64 + (x + i) % 64, spriteBit (sprite.getD r 0) i)
      ∈ spriteWrites x y sprite :=
  List.mem_flatMap.2 ⟨r, List.mem_range.2 hr,
    List.mem_map.2 ⟨i, List.mem_range.2 hi, rfl⟩⟩

theorem add_mod_cancel_lt (a i j m : ℕ) (hi : i < m) (hj : j < m)
    (h : (a + i) % m = (a + j) % m) : i = j := by
  have h2 : i ≡ j [MOD m] := Nat.ModEq.add_left_cancel' a h
  rw [Nat.ModEq] at h2
  rwa [Nat.mod_eq_of_lt hi, Nat.mod_eq_of_lt hj] at h2

theorem spriteWrites_nodup (x y : ℕ) (sprite : List ℕ)
    (hs : sprite.length ≤ 32) :
    ((spriteWrites x y sprite).map Prod.fst).Nodup := by
  rw [spriteWrites, List.map_flatMap]
  simp only [List.map_map]
  apply List.nodup_flatMap.2
  constructor
  · intro r _
    apply List.Nodup.map_on ?_ (List.nodup_range 8)
    intro i hi i' hi' he
    simp only [Function.comp] at he
    have c1 : (x + i) % 64 < 64 := Nat.mod_lt _ (by norm_num)
    have c2 : (x + i') % 64 < 64 := Nat.mod_lt _ (by norm_num)
    have hcol : (x + i) % 64 = (x + i') % 64 := by omega
    exact add_mod_cancel_lt x i i' 64
      (lt_trans (List.mem_range.1 hi) (by norm_num))
      (lt_trans (List.mem_range.1 hi') (by norm_num)) hcol
  · apply List.Pairwise.imp_of_mem ?_ (List.pairwise_lt_range sprite.length)
    intro r r' hr hr' hlt
    intro a ha ha'
    obtain ⟨i, hi, hei⟩ := List.mem_map.1 ha
    obtain ⟨i', hi', hei'⟩ := List.mem_map.1 ha'
    simp only [Function.comp] at hei hei'
    have he : ((y + r) % 32) * 64 + (x + i) % 64
        = ((y + r') % 32) * 64 + (x + i') % 64 := by rw [hei, hei']
    have c1 : (x + i) % 64 < 64 := Nat.mod_lt _ (by norm_num)
    have c2 : (x + i') % 64 < 64 := Nat.mod_lt _ (by norm_num)
    have hrow : (y + r) % 32 = (y + r') % 32 := by omega
    have : r = r' := add_mod_cancel_lt y r r' 32
      (lt_of_lt_of_le (List.mem_range.1 hr) hs)
      (lt_of_lt_of_le (List.mem_range.1 hr') hs) hrow
    omega

/-- C2: drawing the same sprite twice at the same location restores the
pre-draw display, and the second draw's collision flag is 1 exactly
when some pixel was set by the first draw and unset again by the
second. -/
theorem drawSprite_twice (d : List Bool) (x y : ℕ) (sprite : List ℕ)
    (hd : d.length = 2048) (hs : sprite.length ≤ 32) :
    (drawSprite (drawSprite d x y sprite).1 x y sprite).1 = d ∧
    ((drawSprite (drawSprite d x y sprite).1 x y sprite).2 = 1 ↔
      ∃ k, k < 2048 ∧ d.getD k false = false ∧
        (drawSprite d x y sprite).1.getD k false = true ∧
        (drawSprite (drawSprite d x y sprite).1 x y sprite).1.getD k false
          = false) := by
  have nd := spriteWrites_nodup x y sprite hs
  have hb := spriteWrites_fst_lt x y sprite
  have hlen1 : (drawSprite d x y sprite).1.length = 2048 := by
    show (applyWrites ⟨d, false⟩ (spriteWrites x y sprite)).disp.length = 2048
    rw [applyWrites_disp_length]; exact hd
  have hlen2 :
      (drawSprite (drawSprite d x y sprite).1 x y sprite).1.length = 2048 := by
    show (applyWrites ⟨(drawSprite d x y sprite).1, false⟩
      (spriteWrites x y sprite)).disp.length = 2048
    rw [applyWrites_disp_length]; exact hlen1
  have key : ∀ k,
      (drawSprite (drawSprite d x y sprite).1 x y sprite).1.getD k false
        = d.getD k false := by
    intro k
    by_cases hk : k ∈ (spriteWrites x y sprite).map Prod.fst
    · obtain ⟨w, hw, hwk⟩ := List.mem_map.1 hk
      subst hwk
      have hmem : (w.1, w.2) ∈ spriteWrites x y sprite := by
        simpa using hw
      have e2 : (drawSprite (drawSprite d x y sprite).1 x y sprite).1.getD
          w.1 false
          = Bool.xor ((drawSprite d x y sprite).1.getD w.1 false) w.2 :=
        applyWrites_getD_mem _ ⟨(drawSprite d x y sprite).1, false⟩ w.1 w.2
          nd hmem (by rw [hlen1]; exact hb w hw)
      have e1 : (drawSprite d x y sprite).1.getD w.1 false
          = Bool.xor (d.getD w.1 false) w.2 :=
        applyWrites_getD_mem _ ⟨d, false⟩ w.1 w.2 nd hmem
          (by rw [hd]; exact hb w hw)
      rw [e2, e1]
      cases d.getD w.1 false <;> cases w.2 <;> rfl
    · have e2 : (drawSprite (drawSprite d x y sprite).1 x y sprite).1.getD
          k false = (drawSprite d x y sprite).1.getD k false :=
        applyWrites_getD_not_mem _ ⟨(drawSprite d x y sprite).1, false⟩ k hk
      have e1 : (drawSprite d x y sprite).1.getD k false = d.getD k false :=
        applyWrites_getD_not_mem _ ⟨d, false⟩ k hk
      rw [e2, e1]
  have hdisp : (drawSprite (drawSprite d x y sprite).1 x y sprite).1 = d :=
    ext_getD false _ _ (by rw [hlen2, hd]) key
  refine ⟨hdisp, ?_⟩
  have hcol : (drawSprite (drawSprite d x y sprite).1 x y sprite).2
      = if (spriteWrites x y sprite).any
            (fun w => (drawSprite d x y sprite).1.getD w.1 false && w.2)
        then 1 else 0 := by
    show (if (applyWrites ⟨(drawSprite d x y sprite).1, false⟩
        (spriteWrites x y sprite)).collide then (1 : ℕ) else 0) = _
    rw [applyWrites_collide _ _ nd]
    rw [Bool.false_or]
  rw [hcol]
  constructor
  · intro h
    have hany : (spriteWrites x y sprite).any
        (fun w => (drawSprite d x y sprite).1.getD w.1 false && w.2)
        = true := by
      by_contra hcon
      simp only [Bool.not_eq_true] at hcon
      rw [hcon] at h
      simp at h
    obtain ⟨w, hw, hfw⟩ := List.any_eq_true.1 hany
    have hsplit := hfw
    rw [Bool.and_eq_true] at hsplit
    have hmem : (w.1, w.2) ∈ spriteWrites x y sprite := by simpa using hw
    have e1 : (drawSprite d x y sprite).1.getD w.1 false
        = Bool.xor (d.getD w.1 false) w.2 :=
      applyWrites_getD_mem _ ⟨d, false⟩ w.1 w.2 nd hmem
        (by rw [hd]; exact hb w hw)
    have hdfalse : d.getD w.1 false = false := by
      rw [e1, hsplit.2] at hsplit
      cases hdw : d.getD w.1 false
      · rfl
      · rw [hdw] at hsplit
        exact absurd hsplit.1 (by decide)
    exact ⟨w.1, hb w hw, hdfalse, hsplit.1, by rw [key w.1]; exact hdfalse⟩
  · rintro ⟨k, _, hdk, hd1k, _⟩
    have hk : k ∈ (spriteWrites x y sprite).map Prod.fst := by
      by_contra hcon
      have := applyWrites_getD_not_mem (spriteWrites x y sprite)
        ⟨d, false⟩ k hcon
      rw [show (applyWrites ⟨d, false⟩ (spriteWrites x y sprite)).disp
        = (drawSprite d x y sprite).1 from rfl] at this
      rw [this, hdk] at hd1k
      exact absurd hd1k (by decide)
    obtain ⟨w, hw, hwk⟩ := List.mem_map.1 hk
    subst hwk
    have hmem : (w.1, w.2) ∈ spriteWrites x y sprite := by simpa using hw
    have e1 : (drawSprite d x y sprite).1.getD w.1 false
        = Bool.xor (d.getD w.1 false) w.2 :=
      applyWrites_getD_mem _ ⟨d, false⟩ w.1 w.2 nd hmem
        (by rw [hd]; exact hb w hw)
    have hw2 : w.2 = true := by
      rw [e1, hdk] at hd1k
      cases hw2c : w.2
      · rw [hw2c] at hd1k
        exact absurd hd1k (by decide)
      · rfl
    have : (spriteWrites x y sprite).any
        (fun u => (drawSprite d x y sprite).1.getD u.1 false && u.2)
        = true :=
      List.any_eq_true.2 ⟨w, hw, by rw [hd1k, hw2]; rfl⟩
    rw [this]
    rfl

theorem clearDisplay_length : clearDisplay.length = 2048 := by
  rw [clearDisplay, List.length_replicate]

/-- Witness for drawSprite_twice: a one-row full sprite drawn twice at
(10, 5) on the cleared display restores the cleared display. -/
theorem drawSprite_twice_witness :
    (drawSprite (drawSprite clearDisplay 10 5 [255]).1 10 5 [255]).1
      = clearDisplay :=
  (drawSprite_twice clearDisplay 10 5 [255] clearDisplay_length
    (by norm_num)).1

theorem getD_replicate_false (n k : ℕ) :
    (List.replicate n false).getD k false = false := by
  induction n generalizing k with
  | zero => rfl
  | succ n ih =>
    cases k with
    | zero => rfl
    | succ k => exact ih k

theorem spriteBit_255 (i : ℕ) (hi : i < 8) : spriteBit 255 i = true := by
  interval_cases i <;> decide

/-- C3: draw_sprite addresses pixel (x + i mod 64, y + r mod 32), both
axes wrapping, and concretely the one-row all-set sprite drawn at
(63, 0) on the cleared display sets exactly columns 63 and 0-6 of
row 0. -/
theorem drawSprite_wrap :
    (∀ (d : List Bool) (x y : ℕ) (sprite : List ℕ) (r i : ℕ),
      d.length = 2048 → sprite.length ≤ 32 → r < sprite.length → i < 8 →
      (drawSprite d x y sprite).1.getD
          (((y + r) % 32) * 64 + (x + i) % 64) false
        = Bool.xor (d.getD (((y + r) % 32) * 64 + (x + i) % 64) false)
            (spriteBit (sprite.getD r 0) i)) ∧
    (∀ k : ℕ,
      ((drawSprite clearDisplay 63 0 [255]).1.getD k false = true ↔
        (k < 7 ∨ k = 63))) := by
  constructor
  · intro d x y sprite r i hd hs hr hi
    have h1 : (y + r) % 32 < 32 := Nat.mod_lt _ (by norm_num)
    have h2 : (x + i) % 64 < 64 := Nat.mod_lt _ (by norm_num)
    exact applyWrites_getD_mem _ ⟨d, false⟩ _ _
      (spriteWrites_nodup x y sprite hs)
      (spriteWrites_mem x y sprite r i hr hi) (by rw [hd]; omega)
  · intro k
    have nd := spriteWrites_nodup 63 0 [255] (by norm_num)
    have hclear : ∀ j, clearDisplay.getD j false = false := fun j =>
      getD_replicate_false 2048 j
    constructor
    · intro hset
      by_contra hcon
      have hnm : k ∉ (spriteWrites 63 0 [255]).map Prod.fst := by
        intro hk
        obtain ⟨w, hw, hwk⟩ := List.mem_map.1 hk
        obtain ⟨r, hr, hw2⟩ := List.mem_flatMap.1 hw
        obtain ⟨i, hi, he⟩ := List.mem_map.1 hw2
        rw [← he] at hwk
        simp only at hwk
        have hr1 : r < 1 := List.mem_range.1 hr
        have hi8 : i < 8 := List.mem_range.1 hi
        apply hcon
        omega
      have := applyWrites_getD_not_mem (spriteWrites 63 0 [255])
        ⟨clearDisplay, false⟩ k hnm
      rw [show (applyWrites ⟨clearDisplay, false⟩ (spriteWrites 63 0 [255])).disp
        = (drawSprite clearDisplay 63 0 [255]).1 from rfl] at this
      rw [this, hclear k] at hset
      exact absurd hset (by decide)
    · intro hk
      obtain ⟨i, hi8, hik⟩ : ∃ i, i < 8 ∧ ((0 + 0) % 32) * 64 + (63 + i) % 64 = k := by
        rcases hk with hk7 | h63
        · exact ⟨k + 1, by omega, by omega⟩
        · exact ⟨0, by omega, by omega⟩
      have hmem := spriteWrites_mem 63 0 [255] 0 i (by norm_num) hi8
      rw [hik] at hmem
      have := applyWrites_getD_mem (spriteWrites 63 0 [255])
        ⟨clearDisplay, false⟩ k (spriteBit (([255] : List ℕ).getD 0 0) i)
        nd hmem (by
          show k < clearDisplay.length
          rw [clearDisplay_length]
          omega)
      rw [show (applyWrites ⟨clearDisplay, false⟩ (spriteWrites 63 0 [255])).disp
        = (drawSprite clearDisplay 63 0 [255]).1 from rfl] at this
      rw [this, hclear k]
      rw [show ([255] : List ℕ).getD 0 0 = 255 from rfl, spriteBit_255 i hi8]
      rfl

/-- Witness for drawSprite_wrap: the second sprite row, bit 3, lands at
the wrapped pixel address. -/
theorem drawSprite_wrap_witness :
    (drawSprite clearDisplay 5 6 [255, 129]).1.getD
        (((6 + 1) % 32) * 64 + (5 + 3) % 64) false
      = Bool.xor
          (clearDisplay.getD (((6 + 1) % 32) * 64 + (5 + 3) % 64) false)
          (spriteBit (([255, 129] : List ℕ).getD 1 0) 3) :=
  drawSprite_wrap.1 clearDisplay 5 6 [255, 129] 1 3 clearDisplay_length
    (by norm_num) (by norm_num) (by norm_num)

end Emul8
